import Mathlib

/-!
Verification development for the calcifer LLM gateway (Go).

The Go sources are shallowly embedded: Go strings are byte lists
(`GoStr`), Go maps are association lists whose lookup returns the most
recently inserted binding, Go `float64` values are modelled as exact
rationals (`ℚ`), Go `error` results are modelled with `Option String` /
`Except String`, and each goroutine body that the claims mention is
translated into a pure function from its finite input sequence to the
sequence of values it sends plus its side effects (cache `Set` calls).
-/

namespace Calcifer

/-- Go strings are immutable byte slices; we model them as lists of bytes
(each a `Nat`, in range `0..255` for real strings). -/
abbrev GoStr := List Nat

/-- UTF-8 encoding of a single Unicode code point (1 to 4 bytes), as Go
produces it when a string literal is compiled or a `string` is converted
to `[]byte`. -/
def utf8Bytes (c : Nat) : List Nat :=
  if c < 0x80 then [c]
  else if c < 0x800 then
    [0xC0 + c / 0x40, 0x80 + c % 0x40]
  else if c < 0x10000 then
    [0xE0 + c / 0x1000, 0x80 + (c / 0x40) % 0x40, 0x80 + c % 0x40]
  else
    [0xF0 + c / 0x40000, 0x80 + (c / 0x1000) % 0x40, 0x80 + (c / 0x40) % 0x40, 0x80 + c % 0x40]

/-- The byte content of a Go string, written here via a Lean string literal. -/
def gostr (s : String) : GoStr :=
  (s.data.map (fun c => utf8Bytes c.toNat)).flatten

/-- Lookup in a Go map modelled as an association list: the binding
inserted last (kept at the head) wins. -/
def mapLookup {α : Type} (m : List (GoStr × α)) (k : GoStr) : Option α :=
  (m.find? (fun kv => kv.1 = k)).map (fun kv => kv.2)

/-- Insertion in a Go map modelled as an association list: the new
binding shadows any previous binding for the same key. -/
def mapInsert {α : Type} (m : List (GoStr × α)) (k : GoStr) (v : α) : List (GoStr × α) :=
  (k, v) :: m

theorem mapLookup_insert {α : Type} (m : List (GoStr × α)) (k k' : GoStr) (v : α) :
    mapLookup (mapInsert m k v) k' = if k' = k then some v else mapLookup m k' := by
  by_cases h : k' = k
  · subst h
    simp [mapLookup, mapInsert, List.find?]
  · have hd : (decide (k = k')) = false := by
      simpa using fun hkk => h hkk.symm
    simp [mapLookup, mapInsert, List.find?, h, hd]

/-! ## Domain data model (internal/domain/models.go) -/

/-- One chat message of a `CompletionRequest` (`Message` in Go). -/
structure Message where
  role : GoStr
  content : GoStr
  deriving DecidableEq, Repr

/-- The canonical request (`CompletionRequest` in Go).  `Temperature` is a
`float64`, modelled exactly as a rational. -/
structure CompletionRequest where
  model : GoStr
  messages : List Message
  temperature : ℚ
  maxTokens : Int
  stream : Bool
  metadata : List (GoStr × GoStr)
  deriving DecidableEq, Repr

/-- Token accounting (`Usage` in Go); `Cost` is a `float64`, modelled as a
rational. -/
structure Usage where
  promptTokens : Int
  completionTokens : Int
  totalTokens : Int
  cost : ℚ
  deriving DecidableEq, Repr

/-- The canonical response (`CompletionResponse` in Go); `FinishTime` is a
wall-clock instant, modelled as a number. -/
structure CompletionResponse where
  id : GoStr
  model : GoStr
  provider : GoStr
  content : GoStr
  usage : Usage
  finishTime : Nat
  deriving DecidableEq, Repr

/-- One unit of a streaming response (`StreamChunk` in Go).  The `Error`
field holds a Go `error`; `none` is Go's `nil`. -/
structure StreamChunk where
  delta : GoStr
  done : Bool
  error : Option String
  deriving DecidableEq, Repr

/-! ## Pricing registry and cost calculator (internal/domain/pricing.go) -/

/-- Per-model pricing (`PricingConfig` in Go), USD per 1000 tokens. -/
structure PricingConfig where
  inputCostPer1K : ℚ
  outputCostPer1K : ℚ
  deriving DecidableEq, Repr

/-- State of `InMemoryPricingRegistry`: the `pricing` map. -/
abbrev PricingTable := List (GoStr × PricingConfig)

/-- Embeds `InMemoryPricingRegistry.GetPricing`. -/
def getPricing (table : PricingTable) (model : GoStr) : Except String PricingConfig :=
  match mapLookup table model with
  | some config => .ok config
  | none => .error "pricing not found for model"

/-- Embeds `StandardCostCalculator.Calculate`: returns the `(float64,
error)` pair as `ℚ × Option String`.  A pricing-lookup failure is
swallowed and yields cost 0 with no error. -/
def calculate (table : PricingTable) (model : GoStr) (usage : Usage) : ℚ × Option String :=
  if model = [] then (0, some "model cannot be empty")
  else
    match getPricing table model with
    | .error _ => (0, none)
    | .ok pricing =>
      let inputCost := (usage.promptTokens : ℚ) / 1000 * pricing.inputCostPer1K
      let outputCost := (usage.completionTokens : ℚ) / 1000 * pricing.outputCostPer1K
      (inputCost + outputCost, none)

/-! ## Provider registry (internal/provider/registry/registry.go) -/

/-- A provider as the registry sees it (`domain.Provider`): an identity,
the model list returned by `SupportedModels(ctx)`, and the
`IsModelSupported(ctx, model)` predicate used by the fallback path of
`GetByModel`. -/
structure Provider where
  name : GoStr
  supportedModels : List GoStr
  isModelSupported : GoStr → Bool

/-- State of `Registry`: the `providers` table and the `modelToProvider`
reverse index (the `sync.RWMutex` serialises access; each operation is
modelled as an atomic function of this state). -/
structure Registry where
  providers : List (GoStr × Provider)
  modelToProvider : List (GoStr × GoStr)

/-- Embeds `NewRegistry`. -/
def emptyRegistry : Registry :=
  { providers := [], modelToProvider := [] }

/-- Embeds `Registry.Register`.  A Go method that mutates the receiver
and returns an `error` becomes a function returning the updated state
together with `Option String`; an error leaves the state it returns equal
to the input state.  A nil `domain.Provider` argument is `none`. -/
def Registry.register (r : Registry) (provider? : Option Provider) : Registry × Option String :=
  match provider? with
  | none => (r, some "provider cannot be nil")
  | some provider =>
    if provider.name = [] then (r, some "provider name cannot be empty")
    else if (mapLookup r.providers provider.name).isSome then
      (r, some "provider already registered")
    else
      ({ providers := mapInsert r.providers provider.name provider,
         modelToProvider :=
           provider.supportedModels.foldl
             (fun index model => mapInsert index model provider.name)
             r.modelToProvider },
       none)

/-- Embeds `Registry.GetByModel`.  Go iterates the `providers` map in
unspecified order on the fallback path; the model uses the list order of
the association list (no settled claim exercises the fallback). -/
def Registry.getByModel (r : Registry) (model : GoStr) : Except String Provider :=
  if model = [] then .error "model cannot be empty"
  else
    match mapLookup r.modelToProvider model with
    | none =>
      match r.providers.find? (fun kv => kv.2.isModelSupported model) with
      | some kv => .ok kv.2
      | none => .error "no provider found for model"
    | some providerName =>
      match mapLookup r.providers providerName with
      | some provider => .ok provider
      | none => .error "provider not found"

/-- Registering a list of providers in order, stopping at the first
error, as a startup sequence of `Register` calls would. -/
def registerAll (r : Registry) (ps : List Provider) : Registry × Option String :=
  match ps with
  | [] => (r, none)
  | p :: rest =>
    match r.register (some p) with
    | (r', none) => registerAll r' rest
    | (r', some e) => (r', some e)

/-- The latest-registered provider of the sequence `ps` that lists `m`
among its supported models (spec vocabulary for claim C8: "last
registration wins"). -/
def lastClaimer (ps : List Provider) (m : GoStr) : Option Provider :=
  match ps with
  | [] => none
  | p :: rest =>
    match lastClaimer rest m with
    | some q => some q
    | none => if m ∈ p.supportedModels then some p else none

/-! ## Gateway streaming (internal/domain/gateway.go) -/

/-- The fixed `chunkSize` constant of `GatewayService.streamFromCache`
(bytes of content per replayed chunk). -/
def chunkSize : Nat := 50

/-- The slices sent by the `streamFromCache` goroutine's loop
`for i := 0; i < len(content); i += chunkSize`, starting at index `i`;
`content[i:min(i+chunkSize, len(content))]` is `(content.drop i).take
chunkSize`. -/
def contentSlices (content : GoStr) (i : Nat) : List GoStr :=
  if h : i < content.length then
    (content.drop i).take chunkSize :: contentSlices content (i + chunkSize)
  else []
termination_by content.length - i
decreasing_by
  simp [chunkSize]
  omega

/-- Embeds the body of the goroutine of `GatewayService.streamFromCache`:
the complete sequence of chunks it sends on `out` before `close(out)` —
one non-terminal chunk per content slice, then the single terminal chunk
`{Delta: "", Done: true, Error: nil}`. -/
def streamFromCache (response : CompletionResponse) : List StreamChunk :=
  (contentSlices response.content 0).map (fun slice => ⟨slice, false, none⟩)
    ++ [⟨[], true, none⟩]

/-- Operational outcome of the replay goroutine of `streamFromCache`
against a consumer that receives exactly `k` chunks and then stops
receiving (for claim C2, this is the consumer whose context became done).
`out` is unbuffered, so each send completes only when the consumer
receives it, in order; the goroutine body contains no `select` on any
context (it is not even passed one), so once the consumer stops, the next
send blocks forever and the deferred `close(out)` is never reached.  The
result is the list of chunks actually delivered and whether the channel
was closed. -/
def replayObserved (response : CompletionResponse) (k : Nat) : List StreamChunk × Bool :=
  let chunks := streamFromCache response
  (chunks.take k, decide (chunks.length ≤ k))

/-- The loop of the goroutine of `GatewayService.cacheStreamWrapper`:
`for chunk := range chunks` forwards every chunk to `out`, records the
last non-nil `chunk.Error`, and appends `chunk.Delta` to the content
builder for every chunk with `Done == false`.  Returns (chunks sent on
`out`, final builder content, final `lastError`). -/
def relayLoop (chunks : List StreamChunk) (acc : GoStr) (lastError : Option String) :
    List StreamChunk × GoStr × Option String :=
  match chunks with
  | [] => ([], acc, lastError)
  | chunk :: rest =>
    let lastError' := match chunk.error with
      | some e => some e
      | none => lastError
    let acc' := if chunk.done then acc else acc ++ chunk.delta
    let res := relayLoop rest acc' lastError'
    (chunk :: res.1, res.2)

/-- The `CompletionResponse` synthesized by `cacheStreamWrapper` after
the upstream sequence closes cleanly: `ID = fmt.Sprintf("stream-%d",
time.Now().UnixNano())` (the nanosecond clock is the parameter `now`),
`Provider = "cached-stream"`, zero usage, and the accumulated content. -/
def synthesizedResponse (now : Nat) (req : CompletionRequest) (content : GoStr) :
    CompletionResponse :=
  { id := gostr "stream-" ++ gostr (Nat.repr now)
    model := req.model
    provider := gostr "cached-stream"
    content := content
    usage := { promptTokens := 0, completionTokens := 0, totalTokens := 0, cost := 0 }
    finishTime := now }

/-- One `cache.Set(cacheCtx, req, response, 1*time.Hour)` call performed
by the caching relay (under the detached context). -/
structure SetCall where
  req : CompletionRequest
  resp : CompletionResponse
  deriving DecidableEq, Repr

/-- Embeds the goroutine of `GatewayService.cacheStreamWrapper` on a
finite upstream sequence: forwards all chunks, then performs the single
`cache.Set` exactly when no chunk carried an error and the accumulated
content is non-empty.  Returns (chunks delivered to the consumer, list
of Set calls performed). -/
def cacheStreamWrapper (now : Nat) (req : CompletionRequest) (chunks : List StreamChunk) :
    List StreamChunk × List SetCall :=
  let res := relayLoop chunks [] none
  let content := res.2.1
  let lastError := res.2.2
  if lastError = none ∧ content ≠ [] then
    (res.1, [⟨req, synthesizedResponse now req content⟩])
  else
    (res.1, [])

/-! ## Semantic cache service (internal/domain/cache_service.go) -/

/-- A vector search hit (`domain.SearchResult`).  `Data` is the stored
JSON payload; `json.Unmarshal` of the payload into a
`CompletionResponse` is modelled by carrying the decoded response
directly (`none` marks a payload that fails to unmarshal). -/
structure SearchResult where
  key : GoStr
  similarity : ℚ
  data : Option CompletionResponse
  indexedAt : Nat

/-- A cache hit (`domain.CachedResponse`). -/
structure CachedResponse where
  response : CompletionResponse
  cachedAt : Nat
  originalModel : GoStr
  similarityScore : ℚ

/-- The collaborators of `SemanticCacheService`: the
`EmbeddingGenerator.Generate` and `SimilaritySearch.Search` calls it
makes, each returning a value or a Go error. -/
structure CacheEnv where
  generate : GoStr → Except String (List ℚ)
  search : List ℚ → ℚ → Nat → Except String (List SearchResult)

/-- Embeds `SemanticCacheService.buildQueryText`: the fingerprint
`"model: <model> | messages: <role1>: <content1> <role2>: <content2> …"`,
roles and contents joined verbatim. -/
def buildQueryText (req : CompletionRequest) : GoStr :=
  let messages := req.messages.map (fun msg => msg.role ++ gostr ": " ++ msg.content)
  let parts := [gostr "model: " ++ req.model,
                gostr "messages: " ++ List.intercalate (gostr " ") messages]
  List.intercalate (gostr " | ") parts

/-- Embeds `SemanticCacheService.Get`.  The Go signature
`(*CachedResponse, error)` is modelled as `Except`: every error return
has a nil response, and the distinguished miss sentinel `ErrCacheMiss`
is the error value `"cache miss"`. -/
def semanticCacheGet (env : CacheEnv) (threshold : ℚ) (req? : Option CompletionRequest) :
    Except String CachedResponse :=
  match req? with
  | none => .error "request cannot be nil"
  | some req =>
    let queryText := buildQueryText req
    match env.generate queryText with
    | .error _ => .error "failed to generate embedding"
    | .ok embedding =>
      match env.search embedding threshold 1 with
      | .error _ => .error "failed to search similar vectors"
      | .ok results =>
        match results with
        | [] => .error "cache miss"
        | result :: _ =>
          match result.data with
          | none => .error "failed to unmarshal cached response"
          | some response =>
            .ok { response := response
                  cachedAt := result.indexedAt
                  originalModel := req.model
                  similarityScore := result.similarity }

/-- Cache metadata attached to a gateway result (`domain.CacheInfo`). -/
structure CacheInfo where
  hit : Bool
  similarityScore : ℚ
  cachedAt : Nat

/-- A gateway result (`domain.CompletionResult`): the response plus
optional cache metadata. -/
structure CompletionResult where
  response : CompletionResponse
  cacheInfo : Option CacheInfo

/-- Embeds `GatewayService.tryGetFromCache`.  Its input is the outcome of
`g.cache.Get(ctx, req)` (`none` when no cache is installed, so the
method returns `(nil, false)` at once).  Any error — the miss sentinel or
an infrastructure failure — yields `(nil, false)`; on a hit the method
sets `cached.Response.Usage.Cost = 0.0` and returns the result with hit
metadata. -/
def tryGetFromCache (getResult? : Option (Except String CachedResponse)) :
    Option CompletionResult × Bool :=
  match getResult? with
  | none => (none, false)
  | some (.error _) => (none, false)
  | some (.ok cached) =>
    let zeroed : CompletionResponse :=
      { cached.response with usage := { cached.response.usage with cost := 0 } }
    (some { response := zeroed
            cacheInfo := some { hit := true
                                similarityScore := cached.similarityScore
                                cachedAt := cached.cachedAt } },
     true)

/-! ## Cache key (crypto/sha256 + encoding/hex as used by
`SemanticCacheService.generateCacheKey`) -/

/-- Truncated 32-bit word arithmetic. -/
def w32 (x : Nat) : Nat := x % 2 ^ 32

/-- Right rotation of a 32-bit word. -/
def rotr32 (n x : Nat) : Nat := w32 (x / 2 ^ n + x * 2 ^ (32 - n))

/-- Bitwise complement of a 32-bit word. -/
def not32 (x : Nat) : Nat := 2 ^ 32 - 1 - w32 x

/-- The eight initial SHA-256 hash values (FIPS 180-4 §5.3.3), written
in decimal. -/
def sha256InitH : List Nat :=
  [1779033703, 3144134277, 1013904242, 2773480762,
   1359893119, 2600822924, 528734635, 1541459225]

/-- The sixty-four SHA-256 round constants (FIPS 180-4 §4.2.2), written
in decimal. -/
def sha256K : List Nat :=
  [1116352408, 1899447441, 3049323471, 3921009573, 961987163,
   1508970993, 2453635748, 2870763221, 3624381080, 310598401,
   607225278, 1426881987, 1925078388, 2162078206, 2614888103,
   3248222580, 3835390401, 4022224774, 264347078, 604807628,
   770255983, 1249150122, 1555081692, 1996064986, 2554220882,
   2821834349, 2952996808, 3210313671, 3336571891, 3584528711,
   113926993, 338241895, 666307205, 773529912, 1294757372,
   1396182291, 1695183700, 1986661051, 2177026350, 2456956037,
   2730485921, 2820302411, 3259730800, 3345764771, 3516065817,
   3600352804, 4094571909, 275423344, 430227734, 506948616,
   659060556, 883997877, 958139571, 1322822218, 1537002063,
   1747873779, 1955562222, 2024104815, 2227730452, 2361852424,
   2428436474, 2756734187, 3204031479, 3329325298]

/-- Big-endian 32-bit words from a list of bytes. -/
def bytesToWords (bytes : List Nat) : List Nat :=
  match bytes with
  | b0 :: b1 :: b2 :: b3 :: rest =>
    (((b0 * 256 + b1) * 256 + b2) * 256 + b3) :: bytesToWords rest
  | _ => []

/-- Big-endian byte expansion of a 32-bit word. -/
def wordToBytes (x : Nat) : List Nat :=
  [x / 2 ^ 24 % 256, x / 2 ^ 16 % 256, x / 2 ^ 8 % 256, x % 256]

/-- SHA-256 message-schedule extension from sixteen to sixty-four words. -/
def sha256Schedule (w : Array Nat) (t : Nat) : Array Nat :=
  if t < 64 then
    let s0 :=
      (rotr32 7 w[t - 15]!) ^^^ (rotr32 18 w[t - 15]!) ^^^ (w[t - 15]! / 2 ^ 3)
    let s1 :=
      (rotr32 17 w[t - 2]!) ^^^ (rotr32 19 w[t - 2]!) ^^^ (w[t - 2]! / 2 ^ 10)
    sha256Schedule (w.push (w32 (w[t - 16]! + s0 + w[t - 7]! + s1))) (t + 1)
  else w
termination_by 64 - t

/-- One SHA-256 compression round. -/
def sha256Round (kw : Nat × Nat) (s : List Nat) : List Nat :=
  match s with
  | [a, b, c, d, e, f, g, h] =>
    let bigS1 := (rotr32 6 e) ^^^ (rotr32 11 e) ^^^ (rotr32 25 e)
    let ch := (e &&& f) ^^^ (not32 e &&& g)
    let t1 := w32 (h + bigS1 + ch + kw.1 + kw.2)
    let bigS0 := (rotr32 2 a) ^^^ (rotr32 13 a) ^^^ (rotr32 22 a)
    let maj := (a &&& b) ^^^ (a &&& c) ^^^ (b &&& c)
    let t2 := w32 (bigS0 + maj)
    [w32 (t1 + t2), a, b, c, w32 (d + t1), e, f, g]
  | s => s

/-- SHA-256 compression of one 64-byte block into the running hash. -/
def sha256Block (h : List Nat) (block : List Nat) : List Nat :=
  let w := sha256Schedule (Array.mk (bytesToWords block)) 16
  let final := (sha256K.zip w.toList).foldl (fun s kw => sha256Round kw s) h
  (h.zip final).map (fun hv => w32 (hv.1 + hv.2))

/-- Split a byte list into 64-byte blocks. -/
def toBlocks (bytes : List Nat) : List (List Nat) :=
  if bytes = [] then []
  else bytes.take 64 :: toBlocks (bytes.drop 64)
termination_by bytes.length
decreasing_by
  rename_i hne
  have : bytes.length ≠ 0 := fun hl => hne (List.length_eq_zero.mp hl)
  simp
  omega

/-- SHA-256 padding: a `0x80` byte, zeros to 56 mod 64, then the bit
length as eight big-endian bytes (FIPS 180-4 §5.1.1). -/
def sha256Pad (msg : List Nat) : List Nat :=
  let r := (msg.length + 1) % 64
  let zeros := if r ≤ 56 then 56 - r else 56 + 64 - r
  let bitLen := 8 * msg.length
  msg ++ 0x80 :: List.replicate zeros 0
      ++ [bitLen / 2 ^ 56 % 256, bitLen / 2 ^ 48 % 256, bitLen / 2 ^ 40 % 256,
          bitLen / 2 ^ 32 % 256, bitLen / 2 ^ 24 % 256, bitLen / 2 ^ 16 % 256,
          bitLen / 2 ^ 8 % 256, bitLen % 256]

/-- The SHA-256 digest (32 bytes) of a byte list, as computed by Go's
`crypto/sha256.Sum256`. -/
def sha256 (msg : List Nat) : List Nat :=
  (((toBlocks (sha256Pad msg)).foldl sha256Block sha256InitH).map wordToBytes).flatten

/-- One lowercase hexadecimal digit, as `encoding/hex` produces. -/
def hexDigit (n : Nat) : Nat := if n < 10 then 48 + n else 87 + n

/-- Lowercase hexadecimal encoding of a byte list
(`hex.EncodeToString`). -/
def hexEncode (bytes : List Nat) : GoStr :=
  (bytes.map (fun b => [hexDigit (b / 16), hexDigit (b % 16)])).flatten

/-- Embeds `SemanticCacheService.generateCacheKey`:
`fmt.Sprintf("cache:%s", hex.EncodeToString(sha256.Sum256([]byte(queryText))[:]))`. -/
def generateCacheKey (queryText : GoStr) : GoStr :=
  gostr "cache:" ++ hexEncode (sha256 queryText)

/-! ## Shared concrete inputs and helper lemmas -/

/-- A concrete request used by witnesses and counterexamples. -/
def reqW : CompletionRequest :=
  { model := gostr "gpt-4"
    messages := [{ role := gostr "user", content := gostr "Hello" }]
    temperature := 0
    maxTokens := 0
    stream := false
    metadata := [] }

/-- A concrete cached payload whose stored cost is the non-zero value
0.0003 USD. -/
def respCost : CompletionResponse :=
  { id := gostr "resp-1"
    model := gostr "gpt-4"
    provider := gostr "openai"
    content := gostr "Hi!"
    usage := { promptTokens := 10, completionTokens := 5, totalTokens := 15, cost := 3 / 10000 }
    finishTime := 0 }

/-- A concrete cache environment: embedding succeeds and the vector
search returns one decodable hit carrying `respCost`. -/
def envW : CacheEnv :=
  { generate := fun _ => .ok [1]
    search := fun _ _ _ =>
      .ok [{ key := gostr "cache:k", similarity := 9 / 10, data := some respCost, indexedAt := 42 }] }

/-- The concatenation of the deltas of the non-done chunks (the value the
relay's content builder holds when the loop ends). -/
def accumDeltas : List StreamChunk → GoStr
  | [] => []
  | c :: rest => (if c.done then [] else c.delta) ++ accumDeltas rest

theorem relayLoop_fst (chunks : List StreamChunk) (acc : GoStr) (e : Option String) :
    (relayLoop chunks acc e).1 = chunks := by
  induction chunks generalizing acc e with
  | nil => simp [relayLoop]
  | cons c rest ih => simp [relayLoop, ih]

theorem relayLoop_content (chunks : List StreamChunk) (acc : GoStr) (e : Option String) :
    (relayLoop chunks acc e).2.1 = acc ++ accumDeltas chunks := by
  induction chunks generalizing acc e with
  | nil => simp [relayLoop, accumDeltas]
  | cons c rest ih =>
    by_cases hd : c.done <;> simp [relayLoop, accumDeltas, hd, ih]

theorem relayLoop_lastError (chunks : List StreamChunk) (acc : GoStr) (e : Option String) :
    (relayLoop chunks acc e).2.2 = none ↔ (e = none ∧ ∀ c ∈ chunks, c.error = none) := by
  induction chunks generalizing acc e with
  | nil => simp [relayLoop]
  | cons c rest ih =>
    cases he : c.error with
    | none =>
      simp only [relayLoop, he, ih]
      constructor
      · rintro ⟨h1, h2⟩
        exact ⟨h1, by simpa [he] using h2⟩
      · rintro ⟨h1, h2⟩
        exact ⟨h1, fun x hx => h2 x (List.mem_cons_of_mem _ hx)⟩
    | some err =>
      simp only [relayLoop, he, ih]
      constructor
      · rintro ⟨h1, -⟩
        exact absurd h1 (by simp)
      · rintro ⟨-, h2⟩
        exact absurd (h2 c (List.mem_cons_self _ _)) (by simp [he])

/-! ## Claim C7 — cost calculator -/

/-- C7: `Calculate` with an empty model returns an error; with
unregistered pricing it returns `(0, nil)`; with registered pricing
`{inputPer1K, outputPer1K}` it returns
`promptTokens/1000 × inputPer1K + completionTokens/1000 × outputPer1K`
with no error. -/
theorem c7_calculate_cases (table : PricingTable) (model : GoStr) (usage : Usage) :
    (model = [] → calculate table model usage = (0, some "model cannot be empty"))
    ∧ (model ≠ [] → mapLookup table model = none → calculate table model usage = (0, none))
    ∧ (∀ pricing, model ≠ [] → mapLookup table model = some pricing →
        calculate table model usage =
          ((usage.promptTokens : ℚ) / 1000 * pricing.inputCostPer1K
            + (usage.completionTokens : ℚ) / 1000 * pricing.outputCostPer1K, none)) := by
  refine ⟨fun h => by simp [calculate, h], fun h hl => ?_, fun pricing h hl => ?_⟩
  · simp [calculate, getPricing, h, hl]
  · simp [calculate, getPricing, h, hl]

/-- A concrete pricing table: `gpt-4` priced at (0.03, 0.06) per 1K. -/
def tableW : PricingTable :=
  [(gostr "gpt-4", { inputCostPer1K := 3 / 100, outputCostPer1K := 6 / 100 })]

theorem c7_calculate_cases_witness :
    calculate tableW (gostr "gpt-4")
        { promptTokens := 1000, completionTokens := 500, totalTokens := 1500, cost := 0 } =
      ((1000 : ℚ) / 1000 * (3 / 100) + (500 : ℚ) / 1000 * (6 / 100), none) :=
  (c7_calculate_cases tableW (gostr "gpt-4")
      { promptTokens := 1000, completionTokens := 500, totalTokens := 1500, cost := 0 }).2.2
    { inputCostPer1K := 3 / 100, outputCostPer1K := 6 / 100 } (by decide) rfl

/-! ## Claim C9 — registry rejects bad registrations without mutating -/

/-- C9: registering a nil provider, a provider with an empty name, or a
provider whose name is already present returns an error and leaves both
the provider table and the model reverse index unchanged. -/
theorem c9_register_error_leaves_state (r : Registry) (provider? : Option Provider)
    (h : provider? = none
      ∨ ∃ q, provider? = some q ∧ (q.name = [] ∨ (mapLookup r.providers q.name).isSome)) :
    (r.register provider?).2.isSome ∧ (r.register provider?).1 = r := by
  rcases h with h | ⟨q, rfl, hq | hq⟩
  · subst h
    simp [Registry.register]
  · simp [Registry.register, hq]
  · by_cases hname : q.name = [] <;> simp [Registry.register, hname, hq]

theorem c9_register_error_leaves_state_witness :
    (emptyRegistry.register none).2.isSome ∧ (emptyRegistry.register none).1 = emptyRegistry :=
  c9_register_error_leaves_state emptyRegistry none (Or.inl rfl)

/-! ## Claim C1 — where cache-hit cost is zeroed -/

/-- C1 counterexample: `SemanticCacheService.Get` returns the cached
payload's cost verbatim.  With a stored cost of 0.0003, `Get` succeeds
and the returned `usage.cost` is not 0, contradicting the claim that
every `CachedResponse` returned by `Get` has `usage.cost = 0`. -/
theorem c1_cache_get_returns_stored_cost :
    semanticCacheGet envW (85 / 100) (some reqW) =
      .ok ⟨respCost, 42, reqW.model, 9 / 10⟩
    ∧ ¬ respCost.usage.cost = 0 := by
  constructor
  · rfl
  · norm_num [respCost]

/-- C1 amended: the zeroing happens one layer up.  Whenever the
gateway's `tryGetFromCache` reports a hit, the result's `usage.cost` is
0, and the result is exactly the cached response with its stored cost
overwritten by 0. -/
theorem c1_gateway_zeroes_cost_on_hit (getResult? : Option (Except String CachedResponse))
    (r : CompletionResult) (h : (tryGetFromCache getResult?).1 = some r) :
    r.response.usage.cost = 0
    ∧ ∀ cached, getResult? = some (.ok cached) →
        r.response = { cached.response with usage := { cached.response.usage with cost := 0 } } := by
  match getResult? with
  | none => simp [tryGetFromCache] at h
  | some (.error e) => simp [tryGetFromCache] at h
  | some (.ok cached) =>
    simp only [tryGetFromCache] at h
    cases h
    refine ⟨rfl, fun cached' hc => ?_⟩
    cases hc
    rfl

/-- A concrete cache hit wrapping `respCost`. -/
def cachedW : CachedResponse :=
  { response := respCost, cachedAt := 42, originalModel := gostr "gpt-4",
    similarityScore := 9 / 10 }

theorem c1_gateway_zeroes_cost_on_hit_witness :
    ∃ r, (tryGetFromCache (some (.ok cachedW))).1 = some r ∧ r.response.usage.cost = 0 :=
  ⟨_, rfl, (c1_gateway_zeroes_cost_on_hit (some (.ok cachedW)) _ rfl).1⟩

/-! ## Claim C6 — the relay forwards the upstream sequence unchanged -/

/-- C6: the sequence of chunks the caching relay delivers to the
consumer is exactly the upstream sequence, unchanged and in order. -/
theorem c6_relay_forwards_unchanged (now : Nat) (req : CompletionRequest)
    (chunks : List StreamChunk) :
    (cacheStreamWrapper now req chunks).1 = chunks := by
  simp only [cacheStreamWrapper]
  split <;> simp [relayLoop_fst]

/-! ## Claim C4 — no Set when the accumulated buffer is empty -/

/-- C4: if the upstream sequence closes without an error chunk but the
accumulated delta buffer is empty, the relay performs no `cache.Set` at
all. -/
theorem c4_no_set_when_buffer_empty (now : Nat) (req : CompletionRequest)
    (chunks : List StreamChunk)
    (hclean : ∀ c ∈ chunks, c.error = none) (hempty : accumDeltas chunks = []) :
    (cacheStreamWrapper now req chunks).2 = [] := by
  simp only [cacheStreamWrapper]
  rw [if_neg]
  simp [relayLoop_content, hempty]

theorem c4_no_set_when_buffer_empty_witness :
    (cacheStreamWrapper 3 reqW [(⟨[], true, none⟩ : StreamChunk)]).2 = [] :=
  c4_no_set_when_buffer_empty 3 reqW [(⟨[], true, none⟩ : StreamChunk)]
    (by decide) (by decide)

/-! ## Claim C3 — Set exactly once on clean close, never on error -/

/-- C3 counterexample: the upstream sequence consisting of the single
terminal chunk `{delta: "", done: true, error: nil}` closes with no error
chunk, yet the relay performs no `cache.Set` (the accumulated content is
empty), contradicting the claim that `Set` is then invoked exactly
once. -/
theorem c3_no_set_on_clean_empty_stream :
    (∀ c ∈ [(⟨[], true, none⟩ : StreamChunk)], c.error = none)
    ∧ ¬ ((cacheStreamWrapper 0 reqW [(⟨[], true, none⟩ : StreamChunk)]).2.length = 1) := by
  constructor
  · decide
  · decide

/-- C3 amended: when the upstream sequence closes without an error chunk
AND the concatenation of the deltas of the non-done chunks is non-empty,
the relay invokes `cache.Set` exactly once with the synthesized response
(id `stream-<nanoseconds>`, provider `cached-stream`, usage all zeros,
content equal to that concatenation); if any chunk carried an error, no
Set is performed. -/
theorem c3_set_exactly_once_on_clean_close (now : Nat) (req : CompletionRequest)
    (chunks : List StreamChunk) :
    ((∀ c ∈ chunks, c.error = none) → accumDeltas chunks ≠ [] →
      (cacheStreamWrapper now req chunks).2 =
          [⟨req, synthesizedResponse now req (accumDeltas chunks)⟩]
        ∧ (synthesizedResponse now req (accumDeltas chunks)).id =
            gostr "stream-" ++ gostr (Nat.repr now)
        ∧ (synthesizedResponse now req (accumDeltas chunks)).provider = gostr "cached-stream"
        ∧ (synthesizedResponse now req (accumDeltas chunks)).usage =
            { promptTokens := 0, completionTokens := 0, totalTokens := 0, cost := 0 }
        ∧ (synthesizedResponse now req (accumDeltas chunks)).content = accumDeltas chunks)
    ∧ ((∃ c ∈ chunks, ¬ c.error = none) → (cacheStreamWrapper now req chunks).2 = []) := by
  constructor
  · intro hclean hne
    have herr : (relayLoop chunks [] none).2.2 = none :=
      (relayLoop_lastError chunks [] none).mpr ⟨rfl, hclean⟩
    have hcontent : (relayLoop chunks [] none).2.1 = accumDeltas chunks := by
      simpa using relayLoop_content chunks [] none
    simp only [cacheStreamWrapper]
    rw [if_pos ⟨herr, by simp [hcontent, hne]⟩]
    simp [hcontent, synthesizedResponse]
  · rintro ⟨c, hc, hcerr⟩
    have herr : ¬ (relayLoop chunks [] none).2.2 = none := by
      rw [relayLoop_lastError]
      rintro ⟨-, hall⟩
      exact hcerr (hall c hc)
    simp only [cacheStreamWrapper]
    rw [if_neg]
    rintro ⟨h1, -⟩
    exact herr h1

/-- A small concrete upstream sequence that closes cleanly. -/
def chunksW : List StreamChunk :=
  [⟨gostr "Hel", false, none⟩, ⟨gostr "lo", false, none⟩, ⟨[], true, none⟩]

theorem c3_set_exactly_once_on_clean_close_witness :
    (cacheStreamWrapper 7 reqW chunksW).2 =
      [⟨reqW, synthesizedResponse 7 reqW (accumDeltas chunksW)⟩] :=
  (((c3_set_exactly_once_on_clean_close 7 reqW chunksW).1) (by decide) (by decide)).1

/-! ## Claim C5 — shape of the replayed stream -/

theorem contentSlices_flatten (content : GoStr) (i : Nat) :
    (contentSlices content i).flatten = content.drop i := by
  induction i using contentSlices.induct content with
  | case1 i h ih =>
    rw [contentSlices, dif_pos h]
    have hdd : content.drop (i + chunkSize) = (content.drop i).drop chunkSize := by
      rw [List.drop_drop, Nat.add_comm]
    simp only [List.flatten_cons, ih, hdd, List.take_append_drop]
  | case2 i h =>
    rw [contentSlices, dif_neg h]
    simp [List.drop_eq_nil_of_le (by omega : content.length ≤ i)]

theorem contentSlices_length (content : GoStr) (i : Nat) :
    (contentSlices content i).length = (content.length - i + 49) / 50 := by
  induction i using contentSlices.induct content with
  | case1 i h ih =>
    rw [contentSlices, dif_pos h]
    rw [List.length_cons, ih]
    simp only [chunkSize]
    omega
  | case2 i h =>
    rw [contentSlices, dif_neg h]
    simp only [List.length_nil]
    omega

theorem contentSlices_sizes (content : GoStr) (i : Nat) :
    ∀ s ∈ contentSlices content i, s.length ≤ chunkSize := by
  induction i using contentSlices.induct content with
  | case1 i h ih =>
    rw [contentSlices, dif_pos h]
    intro s hs
    rcases List.mem_cons.mp hs with rfl | hs
    · simpa using List.length_take_le chunkSize (content.drop i)
    · exact ih s hs
  | case2 i h =>
    rw [contentSlices, dif_neg h]
    simp

/-- C5: the replay of a cached response with content of byte length `N`
is `ceil(N/50)` (that is, `(N + 49) / 50`) non-terminal chunks — each
with `done = false`, `error = nil`, and a delta of at most 50 bytes —
whose deltas concatenated in order equal the content, followed by
exactly one terminal chunk `{delta: "", done: true, error: nil}`, after
which the channel closes. -/
theorem c5_replay_shape (response : CompletionResponse) :
    ∃ slices : List GoStr,
      streamFromCache response =
          slices.map (fun d => (⟨d, false, none⟩ : StreamChunk)) ++ [⟨[], true, none⟩]
      ∧ slices.length = (response.content.length + 49) / 50
      ∧ (∀ d ∈ slices, d.length ≤ chunkSize)
      ∧ slices.flatten = response.content := by
  refine ⟨contentSlices response.content 0, rfl, ?_, contentSlices_sizes _ 0, ?_⟩
  · simp [contentSlices_length]
  · simpa using contentSlices_flatten response.content 0

theorem streamFromCache_length (response : CompletionResponse) :
    (streamFromCache response).length = (response.content.length + 49) / 50 + 1 := by
  simp [streamFromCache, contentSlices_length]

/-! ## Claim C2 — the replay task and consumer cancellation -/

/-- A concrete cached response with two bytes of content (one slice plus
the terminal chunk). -/
def respReplay : CompletionResponse :=
  { id := gostr "r", model := gostr "gpt-4", provider := gostr "openai",
    content := gostr "hi",
    usage := { promptTokens := 0, completionTokens := 0, totalTokens := 0, cost := 0 },
    finishTime := 0 }

/-- C2 counterexample: a consumer whose context is done from the start
receives zero chunks; the claim says the replay task then stops and
closes the sequence, but the goroutine of `streamFromCache` consults no
context and blocks on its first unbuffered send, so the channel is never
closed. -/
theorem c2_replay_never_closes_when_abandoned :
    (replayObserved respReplay 0).2 = false := by
  simp only [replayObserved, decide_eq_false_iff_not, Nat.not_le]
  rw [streamFromCache_length]
  omega

/-- C2 amended: the replay task never observes the consumer's context.
A consumer that receives `k` chunks and then stops obtains exactly the
first `k` chunks of the full replay sequence, and the channel is closed
iff the consumer received all `ceil(N/50) + 1` chunks; a consumer that
stops earlier (for instance because its context is done) leaves the
goroutine blocked on a send and the channel unclosed. -/
theorem c2_replay_closes_iff_fully_consumed (response : CompletionResponse) (k : Nat) :
    (replayObserved response k).1 = (streamFromCache response).take k
    ∧ ((replayObserved response k).2 = true
        ↔ (response.content.length + 49) / 50 + 1 ≤ k) := by
  refine ⟨rfl, ?_⟩
  simp only [replayObserved, decide_eq_true_eq]
  rw [streamFromCache_length]

/-! ## Claim C10 — fingerprint and cache key -/

/-- C10: the fingerprint is exactly
`"model: <model> | messages: <role1>: <content1> <role2>: <content2> …"`
with roles and contents joined verbatim; the cache key is `"cache:"`
followed by the lowercase hex of the SHA-256 of the fingerprint; and two
requests agreeing on model and messages share both, regardless of their
temperature, maxTokens, metadata, and stream fields (which the
fingerprint never reads). -/
theorem c10_fingerprint_and_key (req1 req2 : CompletionRequest)
    (hm : req1.model = req2.model) (hmsg : req1.messages = req2.messages) :
    buildQueryText req1 =
        gostr "model: " ++ req1.model ++ gostr " | " ++ gostr "messages: "
          ++ List.intercalate (gostr " ")
              (req1.messages.map (fun m => m.role ++ gostr ": " ++ m.content))
    ∧ buildQueryText req1 = buildQueryText req2
    ∧ generateCacheKey (buildQueryText req1) = generateCacheKey (buildQueryText req2)
    ∧ generateCacheKey (buildQueryText req1) =
        gostr "cache:" ++ hexEncode (sha256 (buildQueryText req1)) := by
  have hformat : ∀ req : CompletionRequest,
      buildQueryText req =
        gostr "model: " ++ req.model ++ gostr " | " ++ gostr "messages: "
          ++ List.intercalate (gostr " ")
              (req.messages.map (fun m => m.role ++ gostr ": " ++ m.content)) := by
    intro req
    simp [buildQueryText, List.intercalate, List.append_assoc]
  have heq : buildQueryText req1 = buildQueryText req2 := by
    rw [hformat req1, hformat req2, hm, hmsg]
  exact ⟨hformat req1, heq, by rw [heq], rfl⟩

/-- The request `reqW` with different sampling parameters, stream flag
and metadata. -/
def reqVar : CompletionRequest :=
  { model := gostr "gpt-4"
    messages := [{ role := gostr "user", content := gostr "Hello" }]
    temperature := 7 / 10
    maxTokens := 128
    stream := true
    metadata := [(gostr "k", gostr "v")] }

theorem c10_fingerprint_and_key_witness :
    buildQueryText reqW = buildQueryText reqVar
    ∧ generateCacheKey (buildQueryText reqW) = generateCacheKey (buildQueryText reqVar) :=
  ⟨(c10_fingerprint_and_key reqW reqVar rfl rfl).2.1,
   (c10_fingerprint_and_key reqW reqVar rfl rfl).2.2.1⟩

/-! ## Claim C8 — model routing after registration -/

theorem register_ok (r : Registry) (p : Provider) (r' : Registry)
    (h : r.register (some p) = (r', none)) :
    p.name ≠ [] ∧ mapLookup r.providers p.name = none
    ∧ r'.providers = mapInsert r.providers p.name p
    ∧ r'.modelToProvider =
        p.supportedModels.foldl (fun index model => mapInsert index model p.name)
          r.modelToProvider := by
  by_cases h1 : p.name = []
  · simp [Registry.register, h1] at h
  · cases hl : mapLookup r.providers p.name with
    | some v => simp [Registry.register, h1, hl] at h
    | none =>
      simp only [Registry.register, if_neg h1, hl, Option.isSome_none, Bool.false_eq_true,
        if_false, Prod.mk.injEq] at h
      exact ⟨h1, rfl, by rw [← h.1], by rw [← h.1]⟩

theorem mapLookup_foldl_insert (models : List GoStr) (name : GoStr)
    (index : List (GoStr × GoStr)) (m : GoStr) :
    mapLookup (models.foldl (fun idx model => mapInsert idx model name) index) m
      = if m ∈ models then some name else mapLookup index m := by
  induction models generalizing index with
  | nil => simp
  | cons a rest ih =>
    simp only [List.foldl_cons, ih, mapLookup_insert]
    by_cases hm : m ∈ rest
    · simp [hm]
    · by_cases ha : m = a <;> simp [hm, ha]

theorem registerAll_fresh (ps : List Provider) (r rf : Registry)
    (h : registerAll r ps = (rf, none)) :
    ∀ q ∈ ps, mapLookup r.providers q.name = none := by
  induction ps generalizing r with
  | nil => simp
  | cons p rest ih =>
    rcases hreg : r.register (some p) with ⟨r', e⟩
    cases e with
    | some err =>
      simp only [registerAll, hreg] at h
      exact Option.noConfusion (congrArg Prod.snd h)
    | none =>
      simp only [registerAll, hreg] at h
      obtain ⟨-, hfresh, hprov, -⟩ := register_ok r p r' hreg
      intro q hq
      rcases List.mem_cons.mp hq with rfl | hq
      · exact hfresh
      · have := ih r' h q hq
        rw [hprov, mapLookup_insert] at this
        by_cases hname : q.name = p.name
        · rw [if_pos hname] at this
          exact absurd this (by simp)
        · rwa [if_neg hname] at this

theorem registerAll_providers (ps : List Provider) (r rf : Registry)
    (h : registerAll r ps = (rf, none)) (n : GoStr) :
    mapLookup rf.providers n =
      match ps.find? (fun q => q.name = n) with
      | some q => some q
      | none => mapLookup r.providers n := by
  induction ps generalizing r with
  | nil =>
    simp only [registerAll, Prod.mk.injEq] at h
    simp [← h.1, List.find?]
  | cons p rest ih =>
    rcases hreg : r.register (some p) with ⟨r', e⟩
    cases e with
    | some err =>
      simp only [registerAll, hreg] at h
      exact Option.noConfusion (congrArg Prod.snd h)
    | none =>
      simp only [registerAll, hreg] at h
      obtain ⟨-, -, hprov, -⟩ := register_ok r p r' hreg
      have hrest : ∀ q ∈ rest, q.name ≠ p.name := by
        intro q hq hcontra
        have := registerAll_fresh rest r' rf h q hq
        rw [hprov, mapLookup_insert, hcontra, if_pos rfl] at this
        exact absurd this (by simp)
      rw [ih r' h]
      by_cases hn : p.name = n
      · subst hn
        have hfind : rest.find? (fun q => q.name = p.name) = none := by
          rw [List.find?_eq_none]
          intro q hq
          simpa using hrest q hq
        simp [List.find?, hfind, hprov, mapLookup_insert]
      · have hpn : (decide (p.name = n)) = false := by simpa using hn
        simp only [List.find?, hpn]
        cases hfind : rest.find? (fun q => q.name = n) with
        | some q => simp
        | none =>
          simp only [hprov, mapLookup_insert]
          rw [if_neg (fun hc => hn hc.symm)]

theorem registerAll_index (ps : List Provider) (r rf : Registry)
    (h : registerAll r ps = (rf, none)) (m : GoStr) :
    mapLookup rf.modelToProvider m =
      match lastClaimer ps m with
      | some q => some q.name
      | none => mapLookup r.modelToProvider m := by
  induction ps generalizing r with
  | nil =>
    simp only [registerAll, Prod.mk.injEq] at h
    simp [← h.1, lastClaimer]
  | cons p rest ih =>
    rcases hreg : r.register (some p) with ⟨r', e⟩
    cases e with
    | some err =>
      simp only [registerAll, hreg] at h
      exact Option.noConfusion (congrArg Prod.snd h)
    | none =>
      simp only [registerAll, hreg] at h
      obtain ⟨-, -, -, hindex⟩ := register_ok r p r' hreg
      rw [ih r' h]
      cases hlast : lastClaimer rest m with
      | some q => simp [lastClaimer, hlast]
      | none =>
        simp only [lastClaimer, hlast, hindex, mapLookup_foldl_insert]
        by_cases hm : m ∈ p.supportedModels <;> simp [hm]

theorem registerAll_names_unique (ps : List Provider) (r rf : Registry)
    (h : registerAll r ps = (rf, none)) :
    ∀ a ∈ ps, ∀ b ∈ ps, a.name = b.name → a = b := by
  induction ps generalizing r with
  | nil => simp
  | cons p rest ih =>
    rcases hreg : r.register (some p) with ⟨r', e⟩
    cases e with
    | some err =>
      simp only [registerAll, hreg] at h
      exact Option.noConfusion (congrArg Prod.snd h)
    | none =>
      simp only [registerAll, hreg] at h
      obtain ⟨-, -, hprov, -⟩ := register_ok r p r' hreg
      have hrest : ∀ q ∈ rest, q.name ≠ p.name := by
        intro q hq hcontra
        have := registerAll_fresh rest r' rf h q hq
        rw [hprov, mapLookup_insert, hcontra, if_pos rfl] at this
        exact absurd this (by simp)
      intro a ha b hb hab
      rcases List.mem_cons.mp ha with ha1 | ha2
      · rcases List.mem_cons.mp hb with hb1 | hb2
        · rw [ha1, hb1]
        · subst ha1
          exact absurd hab.symm (hrest b hb2)
      · rcases List.mem_cons.mp hb with hb1 | hb2
        · subst hb1
          exact absurd hab (hrest a ha2)
        · exact ih r' h a ha2 b hb2 hab

theorem lastClaimer_isSome (ps : List Provider) (P : Provider) (m : GoStr)
    (hP : P ∈ ps) (hm : m ∈ P.supportedModels) :
    ∃ Q, lastClaimer ps m = some Q := by
  induction ps with
  | nil => cases hP
  | cons p rest ih =>
    rcases List.mem_cons.mp hP with rfl | hP
    · cases hlast : lastClaimer rest m with
      | some q => exact ⟨q, by simp [lastClaimer, hlast]⟩
      | none => exact ⟨P, by simp [lastClaimer, hlast, hm]⟩
    · obtain ⟨Q, hQ⟩ := ih hP
      exact ⟨Q, by simp [lastClaimer, hQ]⟩

theorem lastClaimer_spec (ps : List Provider) (m : GoStr) (Q : Provider)
    (h : lastClaimer ps m = some Q) : Q ∈ ps ∧ m ∈ Q.supportedModels := by
  induction ps with
  | nil => simp [lastClaimer] at h
  | cons p rest ih =>
    cases hlast : lastClaimer rest m with
    | some q =>
      rw [lastClaimer, hlast] at h
      cases h
      obtain ⟨h1, h2⟩ := ih hlast
      exact ⟨List.mem_cons_of_mem _ h1, h2⟩
    | none =>
      rw [lastClaimer, hlast] at h
      by_cases hm : m ∈ p.supportedModels
      · rw [if_pos hm] at h
        cases h
        exact ⟨List.mem_cons_self _ _, hm⟩
      · rw [if_neg hm] at h
        cases h

/-- C8 counterexample: a provider may list the empty string among its
supported models; registration succeeds and writes it into the reverse
index, but `GetByModel("")` rejects the empty model with an error before
any lookup, so not every model in `SupportedModels()` is routable. -/
def provEmptyModel : Provider :=
  { name := gostr "p", supportedModels := [[]], isModelSupported := fun _ => true }

theorem c8_empty_model_unroutable :
    (registerAll emptyRegistry [provEmptyModel]).2 = none
    ∧ [] ∈ provEmptyModel.supportedModels
    ∧ (registerAll emptyRegistry [provEmptyModel]).1.getByModel [] =
        .error "model cannot be empty" := by
  exact ⟨rfl, by simp [provEmptyModel], rfl⟩

/-- C8 amended: after any sequence of successful `Register` calls, for
every registered provider `P` and every non-empty model `m` in
`P.SupportedModels()`, `GetByModel(m)` returns a provider: exactly the
latest-registered provider that listed `m` (which is `P` itself when no
later registration claimed `m`); last registration wins on conflicts.
(`GetByModel` rejects the empty model string even when a provider lists
it.) -/
theorem c8_getByModel_last_claimer (ps : List Provider) (rf : Registry)
    (h : registerAll emptyRegistry ps = (rf, none))
    (P : Provider) (hP : P ∈ ps) (m : GoStr) (hm : m ∈ P.supportedModels) (hne : m ≠ []) :
    ∃ Q, lastClaimer ps m = some Q ∧ rf.getByModel m = .ok Q
      ∧ Q ∈ ps ∧ m ∈ Q.supportedModels := by
  obtain ⟨Q, hQ⟩ := lastClaimer_isSome ps P m hP hm
  obtain ⟨hQmem, hQm⟩ := lastClaimer_spec ps m Q hQ
  have hindex : mapLookup rf.modelToProvider m = some Q.name := by
    rw [registerAll_index ps emptyRegistry rf h m, hQ]
  have hfind : ∃ q, ps.find? (fun q => q.name = Q.name) = some q := by
    have : (ps.find? (fun q => q.name = Q.name)).isSome := by
      rw [List.find?_isSome]
      exact ⟨Q, hQmem, by simp⟩
    exact Option.isSome_iff_exists.mp this
  obtain ⟨q, hq⟩ := hfind
  have hqmem : q ∈ ps := List.mem_of_find?_eq_some hq
  have hqname : q.name = Q.name := by
    have := List.find?_some hq
    simpa using this
  have hqQ : q = Q := registerAll_names_unique ps emptyRegistry rf h q hqmem Q hQmem hqname
  have hprov : mapLookup rf.providers Q.name = some Q := by
    rw [registerAll_providers ps emptyRegistry rf h Q.name, hq, hqQ]
  refine ⟨Q, hQ, ?_, hQmem, hQm⟩
  simp only [Registry.getByModel, if_neg hne, hindex, hprov]

/-- Provider A claiming models m1 and m2. -/
def provA : Provider :=
  { name := gostr "A", supportedModels := [gostr "m1", gostr "m2"],
    isModelSupported := fun _ => false }

/-- Provider B claiming models m2 and m3, registered after A. -/
def provB : Provider :=
  { name := gostr "B", supportedModels := [gostr "m2", gostr "m3"],
    isModelSupported := fun _ => false }

theorem c8_getByModel_last_claimer_witness :
    ∃ Q, lastClaimer [provA, provB] (gostr "m1") = some Q
      ∧ (registerAll emptyRegistry [provA, provB]).1.getByModel (gostr "m1") = .ok Q
      ∧ Q ∈ [provA, provB] ∧ gostr "m1" ∈ Q.supportedModels :=
  c8_getByModel_last_claimer [provA, provB] (registerAll emptyRegistry [provA, provB]).1
    rfl provA (List.mem_cons_self _ _) (gostr "m1") (by decide) (by decide)

end Calcifer
